import Mathlib

/-!
Verification of the traversal adapters of `id-tree` (src/src/tree/iterators.rs):
the four lazy iterators `Ancestors`, `AncestorIds`, `Children` and `ChildrenIds`
over an arena-indexed tree.

The `Tree`/`Node`/`NodeId` types and the trusted lookup `Tree::get_unsafe` live
outside the iterator module; they are modelled from the spec's data model
(section 3) and access contract (section 6).  The four iterator state machines
are translated directly from the source.  A panic of the trusted lookup
(`get_unsafe` on an identifier that does not resolve) is modelled as
`Except.error ()`.
-/

namespace IdTree

/-- Modelled from the spec: a node identifier is an opaque, cheaply copyable,
equality-comparable token naming a node's storage slot; modelled as the arena
index. -/
abbrev NodeId := Nat

/-- Modelled from the spec: a `Node` holds a payload value, an optional parent
identifier, and an ordered sequence of child identifiers (the `Node` type
itself lives outside the iterator module). -/
structure Node (T : Type) where
  data : T
  parent : Option NodeId
  children : List NodeId
  deriving DecidableEq, Repr

/-- Modelled from the spec: the `Tree` owns all node storage in a contiguous
backing store of slots and maps identifiers to nodes; it also designates an
optional root. -/
structure Tree (T : Type) where
  nodes : List (Option (Node T))
  root : Option NodeId
  deriving DecidableEq, Repr

variable {T : Type}

/-- Modelled from the spec: the lookup-by-identifier operation the adapters
consume (`Tree::get_unsafe`); it yields `some` node exactly when the
identifier names a live slot. -/
def Tree.get (t : Tree T) (id : NodeId) : Option (Node T) :=
  t.nodes.getD id none

/-- State of the `Ancestors` iterator (src/src/tree/iterators.rs, `struct
Ancestors`): a borrowed tree and an optional current identifier. -/
structure Ancestors (T : Type) where
  tree : Tree T
  node_id : Option NodeId
  deriving DecidableEq, Repr

/-- `Ancestors::new` (src/src/tree/iterators.rs). -/
def Ancestors.new (tree : Tree T) (node_id : NodeId) : Ancestors T :=
  { tree := tree, node_id := some node_id }

/-- `Ancestors::next` (src/src/tree/iterators.rs lines 31–42).  `Except.error`
models a panic of `get_unsafe` on an identifier that does not resolve. -/
def Ancestors.next (self : Ancestors T) :
    Except Unit (Ancestors T × Option (Node T)) :=
  match self.node_id with
  | some current_id =>
    match self.tree.get current_id with
    | none => Except.error ()
    | some node =>
      match node.parent with
      | some parent_id =>
        match self.tree.get parent_id with
        | none => Except.error ()
        | some parent =>
          Except.ok ({ self with node_id := some parent_id }, some parent)
      | none => Except.ok ({ self with node_id := none }, none)
  | none => Except.ok (self, none)

/-- State of the `AncestorIds` iterator (src/src/tree/iterators.rs, `struct
AncestorIds`). -/
structure AncestorIds (T : Type) where
  tree : Tree T
  node_id : Option NodeId
  deriving DecidableEq, Repr

/-- `AncestorIds::new` (src/src/tree/iterators.rs). -/
def AncestorIds.new (tree : Tree T) (node_id : NodeId) : AncestorIds T :=
  { tree := tree, node_id := some node_id }

/-- `AncestorIds::next` (src/src/tree/iterators.rs lines 64–78): identical to
`Ancestors::next` except it produces the parent's identifier and never looks
the parent up. -/
def AncestorIds.next (self : AncestorIds T) :
    Except Unit (AncestorIds T × Option NodeId) :=
  match self.node_id with
  | some current_id =>
    match self.tree.get current_id with
    | none => Except.error ()
    | some node =>
      match node.parent with
      | some parent_id =>
        Except.ok ({ self with node_id := some parent_id }, some parent_id)
      | none => Except.ok ({ self with node_id := none }, none)
  | none => Except.ok (self, none)

/-- State of the `Children` iterator (src/src/tree/iterators.rs, `struct
Children`): a borrowed tree and the not-yet-visited suffix of the starting
node's child-identifier list (the slice iterator `child_ids`). -/
structure Children (T : Type) where
  tree : Tree T
  child_ids : List NodeId
  deriving DecidableEq, Repr

/-- `Children::new` (src/src/tree/iterators.rs lines 91–98): snapshots the
starting node's child list; the lookup of the starting identifier can panic. -/
def Children.new (tree : Tree T) (node_id : NodeId) :
    Except Unit (Children T) :=
  match tree.get node_id with
  | none => Except.error ()
  | some node => Except.ok { tree := tree, child_ids := node.children }

/-- `Children::next` (src/src/tree/iterators.rs lines 100–109). -/
def Children.next (self : Children T) :
    Except Unit (Children T × Option (Node T)) :=
  match self.child_ids with
  | next_child_id :: rest =>
    match self.tree.get next_child_id with
    | none => Except.error ()
    | some node => Except.ok ({ self with child_ids := rest }, some node)
  | [] => Except.ok (self, none)

/-- State of the `ChildrenIds` iterator (src/src/tree/iterators.rs, `struct
ChildrenIds`): it holds no tree reference, only the remaining child
identifiers. -/
structure ChildrenIds where
  child_ids : List NodeId
  deriving DecidableEq, Repr

/-- `ChildrenIds::new` (src/src/tree/iterators.rs lines 120–124). -/
def ChildrenIds.new (tree : Tree T) (node_id : NodeId) :
    Except Unit ChildrenIds :=
  match tree.get node_id with
  | none => Except.error ()
  | some node => Except.ok { child_ids := node.children }

/-- `ChildrenIds::next` (src/src/tree/iterators.rs lines 126–132): a pure step
on the snapshotted list; it never touches the tree, so it cannot panic. -/
def ChildrenIds.next (self : ChildrenIds) : ChildrenIds × Option NodeId :=
  match self.child_ids with
  | next_child_id :: rest => ({ child_ids := rest }, some next_child_id)
  | [] => (self, none)

/-- Fueled driver for `Ancestors`: repeatedly calls `next`, collecting the
produced nodes, stopping at exhaustion, at a panic, or when out of fuel. -/
def Ancestors.run (fuel : Nat) (s : Ancestors T) : List (Node T) :=
  match fuel with
  | 0 => []
  | f + 1 =>
    match s.next with
    | Except.ok (s1, some node) => node :: s1.run f
    | _ => []

/-- Fueled driver for `AncestorIds`. -/
def AncestorIds.run (fuel : Nat) (s : AncestorIds T) : List NodeId :=
  match fuel with
  | 0 => []
  | f + 1 =>
    match s.next with
    | Except.ok (s1, some id) => id :: s1.run f
    | _ => []

/-- Fueled driver for `Children`. -/
def Children.run (fuel : Nat) (s : Children T) : List (Node T) :=
  match fuel with
  | 0 => []
  | f + 1 =>
    match s.next with
    | Except.ok (s1, some node) => node :: s1.run f
    | _ => []

/-- Fueled driver for `ChildrenIds`. -/
def ChildrenIds.run (fuel : Nat) (s : ChildrenIds) : List NodeId :=
  match fuel with
  | 0 => []
  | f + 1 =>
    match s.next with
    | (s1, some id) => id :: s1.run f
    | (_, none) => []

/-- Modelled from the spec (section 7): the validity contract the adapters
trust — every parent identifier stored in a live node resolves in the tree. -/
def ParentsLive (t : Tree T) : Prop :=
  ∀ id n p, t.get id = some n → n.parent = some p → ∃ m, t.get p = some m

/-- Modelled from the spec: a well-formed tree.  Parent links of live nodes
resolve and cannot cycle, witnessed by a depth function that decreases by
exactly one along each parent link and is zero exactly at a parentless node;
any parentless live node is the tree's designated root. -/
structure WellFormed (t : Tree T) (depth : NodeId → Nat) : Prop where
  parent_live : ParentsLive t
  parent_depth : ∀ id n p, t.get id = some n → n.parent = some p →
    depth id = depth p + 1
  root_depth : ∀ id n, t.get id = some n → n.parent = none → depth id = 0
  root_designated : ∀ id n, t.get id = some n → n.parent = none →
    t.root = some id

/-- The concrete scenario tree of spec section 8 and the source tests:
root `0`, child `1` under the root, children `2` and `3` under `1`. -/
def node0 : Node Nat := { data := 0, parent := none, children := [1] }

/-- Node `1` of the scenario tree. -/
def node1 : Node Nat := { data := 1, parent := some 0, children := [2, 3] }

/-- Node `2` of the scenario tree. -/
def node2 : Node Nat := { data := 2, parent := some 1, children := [] }

/-- Node `3` of the scenario tree. -/
def node3 : Node Nat := { data := 3, parent := some 1, children := [] }

/-- The scenario tree itself. -/
def exampleTree : Tree Nat :=
  { nodes := [some node0, some node1, some node2, some node3], root := some 0 }

/-- Depths of the scenario tree's nodes. -/
def exampleDepth : NodeId → Nat := fun id => [0, 1, 2, 2].getD id 0

/-- A second tree, unrelated to `exampleTree` except that its node `0` stores
the same child-identifier list as `exampleTree`'s node `1`; used to observe
that `ChildrenIds` never consults the tree after construction. -/
def otherTree : Tree Nat :=
  { nodes := [some { data := 99, parent := none, children := [2, 3] }],
    root := some 0 }

/-- Which nodes the scenario tree's lookup can return. -/
theorem exampleTree_get_cases (id : NodeId) (n : Node Nat)
    (h : exampleTree.get id = some n) :
    (id = 0 ∧ n = node0) ∨ (id = 1 ∧ n = node1) ∨ (id = 2 ∧ n = node2) ∨
      (id = 3 ∧ n = node3) := by
  match id with
  | 0 => exact Or.inl ⟨rfl, (Option.some.inj h).symm⟩
  | 1 => exact Or.inr (Or.inl ⟨rfl, (Option.some.inj h).symm⟩)
  | 2 => exact Or.inr (Or.inr (Or.inl ⟨rfl, (Option.some.inj h).symm⟩))
  | 3 => exact Or.inr (Or.inr (Or.inr ⟨rfl, (Option.some.inj h).symm⟩))
  | k + 4 =>
    have hnone : exampleTree.get (k + 4) = none := rfl
    rw [hnone] at h
    cases h

/-- The scenario tree is well-formed with the depths recorded in
`exampleDepth`. -/
theorem exampleTree_wf : WellFormed exampleTree exampleDepth := by
  constructor
  · intro id n p hg hp
    rcases exampleTree_get_cases id n hg with ⟨_, rfl⟩ | ⟨_, rfl⟩ | ⟨_, rfl⟩ | ⟨_, rfl⟩ <;>
      simp [node0, node1, node2, node3] at hp <;> subst hp
    · exact ⟨node0, rfl⟩
    · exact ⟨node1, rfl⟩
    · exact ⟨node1, rfl⟩
  · intro id n p hg hp
    rcases exampleTree_get_cases id n hg with ⟨rfl, rfl⟩ | ⟨rfl, rfl⟩ | ⟨rfl, rfl⟩ | ⟨rfl, rfl⟩ <;>
      simp [node0, node1, node2, node3] at hp <;> subst hp <;> rfl
  · intro id n hg hp
    rcases exampleTree_get_cases id n hg with ⟨rfl, rfl⟩ | ⟨rfl, rfl⟩ | ⟨rfl, rfl⟩ | ⟨rfl, rfl⟩ <;>
      simp [node0, node1, node2, node3] at hp <;> rfl
  · intro id n hg hp
    rcases exampleTree_get_cases id n hg with ⟨rfl, rfl⟩ | ⟨rfl, rfl⟩ | ⟨rfl, rfl⟩ | ⟨rfl, rfl⟩ <;>
      simp [node0, node1, node2, node3] at hp <;> rfl

/-- C1: one step of the ancestor-by-value adapter.  If the cursor holds no
current identifier nothing is produced; otherwise the current node's parent
field is read: if a parent is present the cursor moves to the parent and the
parent's node is produced, if absent the cursor is cleared and nothing is
produced. -/
theorem ancestors_step_spec (s : Ancestors T) :
    (s.node_id = none → s.next = Except.ok (s, none)) ∧
    (∀ c n p pn, s.node_id = some c → s.tree.get c = some n →
      n.parent = some p → s.tree.get p = some pn →
      s.next = Except.ok ({ s with node_id := some p }, some pn)) ∧
    (∀ c n, s.node_id = some c → s.tree.get c = some n → n.parent = none →
      s.next = Except.ok ({ s with node_id := none }, none)) := by
  refine ⟨?_, ?_, ?_⟩
  · intro h
    simp [Ancestors.next, h]
  · intro c n p pn hc hn hp hpn
    simp [Ancestors.next, hc, hn, hp, hpn]
  · intro c n hc hn hp
    simp [Ancestors.next, hc, hn, hp]

/-- Witness for C1 on the scenario tree: an exhausted cursor, a step from
node 2 (producing node 1 and moving the cursor there), and a step from the
root (clearing the cursor, producing nothing). -/
theorem ancestors_step_spec_witness :
    (Ancestors.mk exampleTree none).next =
        Except.ok (Ancestors.mk exampleTree none, none) ∧
    (Ancestors.new exampleTree 2).next =
        Except.ok (Ancestors.mk exampleTree (some 1), some node1) ∧
    (Ancestors.new exampleTree 0).next =
        Except.ok (Ancestors.mk exampleTree none, none) := by
  refine ⟨?_, ?_, ?_⟩
  · exact (ancestors_step_spec (Ancestors.mk exampleTree none)).1 rfl
  · exact (ancestors_step_spec (Ancestors.new exampleTree 2)).2.1
      2 node2 1 node1 rfl rfl rfl rfl
  · exact (ancestors_step_spec (Ancestors.new exampleTree 0)).2.2
      0 node0 rfl rfl rfl

/-- C6: exhaustion is sticky for all four adapters — whenever a step produces
no value, the resulting state is the exhausted one, and stepping it again
produces no value and leaves it unchanged. -/
theorem exhaustion_sticky :
    (∀ (s s1 : Ancestors T), s.next = Except.ok (s1, none) →
      s1.node_id = none ∧ s1.next = Except.ok (s1, none)) ∧
    (∀ (s s1 : AncestorIds T), s.next = Except.ok (s1, none) →
      s1.node_id = none ∧ s1.next = Except.ok (s1, none)) ∧
    (∀ (s s1 : Children T), s.next = Except.ok (s1, none) →
      s1.child_ids = [] ∧ s1.next = Except.ok (s1, none)) ∧
    (∀ (s s1 : ChildrenIds), s.next = (s1, none) →
      s1.child_ids = [] ∧ s1.next = (s1, none)) := by
  refine ⟨?_, ?_, ?_, ?_⟩
  · intro s s1 h
    cases hcur : s.node_id with
    | none =>
      have hs : s.next = Except.ok (s, none) := by simp [Ancestors.next, hcur]
      rw [hs] at h
      obtain rfl : s = s1 := congrArg Prod.fst (Except.ok.inj h)
      exact ⟨hcur, hs⟩
    | some c =>
      cases hg : s.tree.get c with
      | none =>
        have hs : s.next = Except.error () := by simp [Ancestors.next, hcur, hg]
        rw [hs] at h
        cases h
      | some n =>
        cases hp : n.parent with
        | none =>
          have hs : s.next = Except.ok ({ s with node_id := none }, none) := by
            simp [Ancestors.next, hcur, hg, hp]
          rw [hs] at h
          obtain rfl : ({ s with node_id := none } : Ancestors T) = s1 :=
            congrArg Prod.fst (Except.ok.inj h)
          exact ⟨rfl, by simp [Ancestors.next]⟩
        | some p =>
          cases hgp : s.tree.get p with
          | none =>
            have hs : s.next = Except.error () := by
              simp [Ancestors.next, hcur, hg, hp, hgp]
            rw [hs] at h
            cases h
          | some pn =>
            have hs : s.next =
                Except.ok ({ s with node_id := some p }, some pn) := by
              simp [Ancestors.next, hcur, hg, hp, hgp]
            rw [hs] at h
            have := congrArg Prod.snd (Except.ok.inj h)
            cases this
  · intro s s1 h
    cases hcur : s.node_id with
    | none =>
      have hs : s.next = Except.ok (s, none) := by simp [AncestorIds.next, hcur]
      rw [hs] at h
      obtain rfl : s = s1 := congrArg Prod.fst (Except.ok.inj h)
      exact ⟨hcur, hs⟩
    | some c =>
      cases hg : s.tree.get c with
      | none =>
        have hs : s.next = Except.error () := by
          simp [AncestorIds.next, hcur, hg]
        rw [hs] at h
        cases h
      | some n =>
        cases hp : n.parent with
        | none =>
          have hs : s.next = Except.ok ({ s with node_id := none }, none) := by
            simp [AncestorIds.next, hcur, hg, hp]
          rw [hs] at h
          obtain rfl : ({ s with node_id := none } : AncestorIds T) = s1 :=
            congrArg Prod.fst (Except.ok.inj h)
          exact ⟨rfl, by simp [AncestorIds.next]⟩
        | some p =>
          have hs : s.next =
              Except.ok ({ s with node_id := some p }, some p) := by
            simp [AncestorIds.next, hcur, hg, hp]
          rw [hs] at h
          have := congrArg Prod.snd (Except.ok.inj h)
          cases this
  · intro s s1 h
    cases hcl : s.child_ids with
    | nil =>
      have hs : s.next = Except.ok (s, none) := by simp [Children.next, hcl]
      rw [hs] at h
      obtain rfl : s = s1 := congrArg Prod.fst (Except.ok.inj h)
      exact ⟨hcl, hs⟩
    | cons c rest =>
      cases hg : s.tree.get c with
      | none =>
        have hs : s.next = Except.error () := by simp [Children.next, hcl, hg]
        rw [hs] at h
        cases h
      | some n =>
        have hs : s.next = Except.ok ({ s with child_ids := rest }, some n) := by
          simp [Children.next, hcl, hg]
        rw [hs] at h
        have := congrArg Prod.snd (Except.ok.inj h)
        cases this
  · intro s s1 h
    cases hcl : s.child_ids with
    | nil =>
      have hs : s.next = (s, none) := by simp [ChildrenIds.next, hcl]
      rw [hs] at h
      obtain rfl : s = s1 := congrArg Prod.fst h
      exact ⟨hcl, hs⟩
    | cons c rest =>
      have hs : s.next = (ChildrenIds.mk rest, some c) := by
        simp [ChildrenIds.next, hcl]
      rw [hs] at h
      have := congrArg Prod.snd h
      cases this

/-- Witness for C6: the four exhausted self-loops on concrete exhausted
states over the scenario tree. -/
theorem exhaustion_sticky_witness :
    ((Ancestors.mk exampleTree none).next =
      Except.ok (Ancestors.mk exampleTree none, none)) ∧
    ((AncestorIds.mk exampleTree none).next =
      Except.ok (AncestorIds.mk exampleTree none, none)) ∧
    ((Children.mk exampleTree []).next =
      Except.ok (Children.mk exampleTree [], none)) ∧
    ((ChildrenIds.mk []).next = (ChildrenIds.mk [], none)) := by
  refine ⟨?_, ?_, ?_, ?_⟩
  · exact (exhaustion_sticky.1 (Ancestors.new exampleTree 0)
      (Ancestors.mk exampleTree none) rfl).2
  · exact (exhaustion_sticky.2.1 (AncestorIds.new exampleTree 0)
      (AncestorIds.mk exampleTree none) rfl).2
  · exact (exhaustion_sticky.2.2.1 (Children.mk exampleTree [])
      (Children.mk exampleTree []) rfl).2
  · exact ((@exhaustion_sticky Nat).2.2.2 (ChildrenIds.mk [])
      (ChildrenIds.mk []) rfl).2

/-- C9: neither construction nor stepping of any adapter changes the tree —
every adapter state reached by a successful step carries the tree it started
with, unchanged; only the cursor component differs.  (The `ChildrenIds`
adapter stores no tree at all.) -/
theorem tree_read_only :
    (∀ (t : Tree T) id, (Ancestors.new t id).tree = t ∧
      (AncestorIds.new t id).tree = t ∧
      (∀ s, Children.new t id = Except.ok s → s.tree = t)) ∧
    (∀ (s s1 : Ancestors T) out, s.next = Except.ok (s1, out) →
      s1.tree = s.tree) ∧
    (∀ (s s1 : AncestorIds T) out, s.next = Except.ok (s1, out) →
      s1.tree = s.tree) ∧
    (∀ (s s1 : Children T) out, s.next = Except.ok (s1, out) →
      s1.tree = s.tree) := by
  refine ⟨?_, ?_, ?_, ?_⟩
  · intro t id
    refine ⟨rfl, rfl, ?_⟩
    intro s h
    cases hg : t.get id with
    | none => rw [show Children.new t id = Except.error () from by
        simp [Children.new, hg]] at h; cases h
    | some n =>
      rw [show Children.new t id = Except.ok (Children.mk t n.children) from by
        simp [Children.new, hg]] at h
      obtain rfl := Except.ok.inj h
      rfl
  · intro s s1 out h
    cases hcur : s.node_id with
    | none =>
      rw [show s.next = Except.ok (s, none) from by
        simp [Ancestors.next, hcur]] at h
      obtain rfl : s = s1 := congrArg Prod.fst (Except.ok.inj h)
      rfl
    | some c =>
      cases hg : s.tree.get c with
      | none =>
        rw [show s.next = Except.error () from by
          simp [Ancestors.next, hcur, hg]] at h
        cases h
      | some n =>
        cases hp : n.parent with
        | none =>
          rw [show s.next = Except.ok ({ s with node_id := none }, none) from by
            simp [Ancestors.next, hcur, hg, hp]] at h
          obtain rfl : ({ s with node_id := none } : Ancestors T) = s1 :=
            congrArg Prod.fst (Except.ok.inj h)
          rfl
        | some p =>
          cases hgp : s.tree.get p with
          | none =>
            rw [show s.next = Except.error () from by
              simp [Ancestors.next, hcur, hg, hp, hgp]] at h
            cases h
          | some pn =>
            rw [show s.next =
                Except.ok ({ s with node_id := some p }, some pn) from by
              simp [Ancestors.next, hcur, hg, hp, hgp]] at h
            obtain rfl : ({ s with node_id := some p } : Ancestors T) = s1 :=
              congrArg Prod.fst (Except.ok.inj h)
            rfl
  · intro s s1 out h
    cases hcur : s.node_id with
    | none =>
      rw [show s.next = Except.ok (s, none) from by
        simp [AncestorIds.next, hcur]] at h
      obtain rfl : s = s1 := congrArg Prod.fst (Except.ok.inj h)
      rfl
    | some c =>
      cases hg : s.tree.get c with
      | none =>
        rw [show s.next = Except.error () from by
          simp [AncestorIds.next, hcur, hg]] at h
        cases h
      | some n =>
        cases hp : n.parent with
        | none =>
          rw [show s.next = Except.ok ({ s with node_id := none }, none) from by
            simp [AncestorIds.next, hcur, hg, hp]] at h
          obtain rfl : ({ s with node_id := none } : AncestorIds T) = s1 :=
            congrArg Prod.fst (Except.ok.inj h)
          rfl
        | some p =>
          rw [show s.next =
              Except.ok ({ s with node_id := some p }, some p) from by
            simp [AncestorIds.next, hcur, hg, hp]] at h
          obtain rfl : ({ s with node_id := some p } : AncestorIds T) = s1 :=
            congrArg Prod.fst (Except.ok.inj h)
          rfl
  · intro s s1 out h
    cases hcl : s.child_ids with
    | nil =>
      rw [show s.next = Except.ok (s, none) from by
        simp [Children.next, hcl]] at h
      obtain rfl : s = s1 := congrArg Prod.fst (Except.ok.inj h)
      rfl
    | cons c rest =>
      cases hg : s.tree.get c with
      | none =>
        rw [show s.next = Except.error () from by
          simp [Children.next, hcl, hg]] at h
        cases h
      | some n =>
        rw [show s.next =
            Except.ok ({ s with child_ids := rest }, some n) from by
          simp [Children.next, hcl, hg]] at h
        obtain rfl : ({ s with child_ids := rest } : Children T) = s1 :=
          congrArg Prod.fst (Except.ok.inj h)
        rfl

/-- Witness for C9: construction and one successful step of each
tree-carrying adapter over the scenario tree leave the tree intact. -/
theorem tree_read_only_witness :
    (Ancestors.new exampleTree 2).tree = exampleTree ∧
    (AncestorIds.new exampleTree 2).tree = exampleTree ∧
    (Ancestors.mk exampleTree (some 1)).tree = exampleTree ∧
    (AncestorIds.mk exampleTree (some 1)).tree = exampleTree ∧
    (Children.mk exampleTree [3]).tree = exampleTree := by
  refine ⟨?_, ?_, ?_, ?_, ?_⟩
  · exact (tree_read_only.1 exampleTree 2).1
  · exact (tree_read_only.1 exampleTree 2).2.1
  · exact tree_read_only.2.1 (Ancestors.new exampleTree 2)
      (Ancestors.mk exampleTree (some 1)) (some node1) rfl
  · exact tree_read_only.2.2.1 (AncestorIds.new exampleTree 2)
      (AncestorIds.mk exampleTree (some 1)) (some 1) rfl
  · exact tree_read_only.2.2.2 (Children.mk exampleTree [2, 3])
      (Children.mk exampleTree [3]) (some node2) rfl

/-- C10: the `ChildrenIds` adapter reads the tree only at construction.  For
any two trees in which the starting nodes store the same child-identifier
list, construction succeeds on both and the complete output sequences agree
at every fuel. -/
theorem children_ids_tree_independent (t1 t2 : Tree T) (id1 id2 : NodeId)
    (n1 n2 : Node T) (h1 : t1.get id1 = some n1) (h2 : t2.get id2 = some n2)
    (hc : n1.children = n2.children) :
    ∃ s1 s2, ChildrenIds.new t1 id1 = Except.ok s1 ∧
      ChildrenIds.new t2 id2 = Except.ok s2 ∧
      ∀ fuel, s1.run fuel = s2.run fuel := by
  refine ⟨ChildrenIds.mk n1.children, ChildrenIds.mk n2.children,
    by simp [ChildrenIds.new, h1], by simp [ChildrenIds.new, h2], ?_⟩
  intro fuel
  rw [hc]

/-- Witness for C10: node 1 of the scenario tree and node 0 of `otherTree`
store the same child list `[2, 3]`, so the two `ChildrenIds` adapters agree
even though the trees differ everywhere else. -/
theorem children_ids_tree_independent_witness :
    exampleTree.get 1 = some node1 ∧
    otherTree.get 0 =
      some { data := 99, parent := none, children := [2, 3] } ∧
    ∃ s1 s2, ChildrenIds.new exampleTree 1 = Except.ok s1 ∧
      ChildrenIds.new otherTree 0 = Except.ok s2 ∧
      ∀ fuel, s1.run fuel = s2.run fuel :=
  ⟨rfl, rfl, children_ids_tree_independent exampleTree otherTree 1 0 node1
    { data := 99, parent := none, children := [2, 3] } rfl rfl rfl⟩

/-- C8: totality.  Provided every identifier an adapter is about to read
resolves in its tree, each step returns a result (a value or exhaustion) and
never panics — including steps taken past exhaustion; `ChildrenIds` steps are
unconditionally total, and the two snapshotting constructors succeed whenever
the starting identifier resolves. -/
theorem steps_total :
    (∀ (s : Ancestors T),
      (∀ c, s.node_id = some c → ∃ n, s.tree.get c = some n ∧
        ∀ p, n.parent = some p → ∃ m, s.tree.get p = some m) →
      ∃ r, s.next = Except.ok r) ∧
    (∀ (s : AncestorIds T),
      (∀ c, s.node_id = some c → ∃ n, s.tree.get c = some n) →
      ∃ r, s.next = Except.ok r) ∧
    (∀ (s : Children T),
      (∀ c rest, s.child_ids = c :: rest → ∃ n, s.tree.get c = some n) →
      ∃ r, s.next = Except.ok r) ∧
    (∀ (s : ChildrenIds), s.next = (s, none) ∨ ∃ s1 v, s.next = (s1, some v)) ∧
    (∀ (t : Tree T) id n, t.get id = some n →
      (∃ s, Children.new t id = Except.ok s) ∧
      (∃ s, ChildrenIds.new t id = Except.ok s)) := by
  refine ⟨?_, ?_, ?_, ?_, ?_⟩
  · intro s hres
    cases hcur : s.node_id with
    | none => exact ⟨(s, none), by simp [Ancestors.next, hcur]⟩
    | some c =>
      obtain ⟨n, hn, hpar⟩ := hres c hcur
      cases hp : n.parent with
      | none =>
        exact ⟨({ s with node_id := none }, none),
          by simp [Ancestors.next, hcur, hn, hp]⟩
      | some p =>
        obtain ⟨m, hm⟩ := hpar p hp
        exact ⟨({ s with node_id := some p }, some m),
          by simp [Ancestors.next, hcur, hn, hp, hm]⟩
  · intro s hres
    cases hcur : s.node_id with
    | none => exact ⟨(s, none), by simp [AncestorIds.next, hcur]⟩
    | some c =>
      obtain ⟨n, hn⟩ := hres c hcur
      cases hp : n.parent with
      | none =>
        exact ⟨({ s with node_id := none }, none),
          by simp [AncestorIds.next, hcur, hn, hp]⟩
      | some p =>
        exact ⟨({ s with node_id := some p }, some p),
          by simp [AncestorIds.next, hcur, hn, hp]⟩
  · intro s hres
    cases hcl : s.child_ids with
    | nil => exact ⟨(s, none), by simp [Children.next, hcl]⟩
    | cons c rest =>
      obtain ⟨n, hn⟩ := hres c rest hcl
      exact ⟨({ s with child_ids := rest }, some n),
        by simp [Children.next, hcl, hn]⟩
  · intro s
    cases hcl : s.child_ids with
    | nil => exact Or.inl (by simp [ChildrenIds.next, hcl])
    | cons c rest =>
      exact Or.inr ⟨ChildrenIds.mk rest, c, by simp [ChildrenIds.next, hcl]⟩
  · intro t id n hg
    exact ⟨⟨Children.mk t n.children, by simp [Children.new, hg]⟩,
      ⟨ChildrenIds.mk n.children, by simp [ChildrenIds.new, hg]⟩⟩

/-- Witness for C8: concrete total steps and constructions on the scenario
tree, with the resolution preconditions discharged there. -/
theorem steps_total_witness :
    (∃ r, (Ancestors.new exampleTree 1).next = Except.ok r) ∧
    (∃ r, (AncestorIds.new exampleTree 1).next = Except.ok r) ∧
    (∃ r, (Children.mk exampleTree [2, 3]).next = Except.ok r) ∧
    ((ChildrenIds.mk []).next = (ChildrenIds.mk [], none) ∨
      ∃ s1 v, (ChildrenIds.mk []).next = (s1, some v)) ∧
    (∃ s, Children.new exampleTree 0 = Except.ok s) := by
  refine ⟨?_, ?_, ?_, ?_, ?_⟩
  · refine steps_total.1 (Ancestors.new exampleTree 1) ?_
    intro c hc
    obtain rfl : 1 = c := Option.some.inj hc
    refine ⟨node1, rfl, ?_⟩
    intro p hp
    obtain rfl : 0 = p := Option.some.inj hp
    exact ⟨node0, rfl⟩
  · refine steps_total.2.1 (AncestorIds.new exampleTree 1) ?_
    intro c hc
    obtain rfl : 1 = c := Option.some.inj hc
    exact ⟨node1, rfl⟩
  · refine steps_total.2.2.1 (Children.mk exampleTree [2, 3]) ?_
    intro c rest hc
    injection hc with h1 h2
    subst h1
    subst h2
    exact ⟨node2, rfl⟩
  · exact (@steps_total Nat).2.2.2.1 (ChildrenIds.mk [])
  · exact ((@steps_total Nat).2.2.2.2 exampleTree 0 node0 rfl).1

/-- `getLast?` commutes with `map`. -/
theorem list_getLast?_map {α β : Type} (f : α → β) :
    ∀ (l : List α), (l.map f).getLast? = l.getLast?.map f := by
  intro l
  induction l with
  | nil => rfl
  | cons a l ih =>
    cases l with
    | nil => rfl
    | cons b m =>
      rw [List.map_cons, List.map_cons, List.getLast?_cons_cons,
        List.getLast?_cons_cons, ← List.map_cons]
      exact ih

/-- When every parent link of a live node resolves, the identifier run and
the node run of the two ancestor adapters walk the same cursor states, and
resolving each produced identifier gives exactly the produced nodes. -/
theorem ancestors_run_map (t : Tree T) (hpl : ParentsLive t) :
    ∀ (fuel : Nat) (cur : Option NodeId),
      (AncestorIds.run fuel (AncestorIds.mk t cur)).map t.get =
        (Ancestors.run fuel (Ancestors.mk t cur)).map some := by
  intro fuel
  induction fuel with
  | zero => intro cur; rfl
  | succ f ih =>
    intro cur
    cases cur with
    | none => rfl
    | some c =>
      cases hg : t.get c with
      | none =>
        simp [AncestorIds.run, Ancestors.run, AncestorIds.next,
          Ancestors.next, hg]
      | some n =>
        cases hp : n.parent with
        | none =>
          simp [AncestorIds.run, Ancestors.run, AncestorIds.next,
            Ancestors.next, hg, hp]
        | some p =>
          obtain ⟨m, hm⟩ := hpl c n p hg hp
          have hruni : AncestorIds.run (f + 1) (AncestorIds.mk t (some c)) =
              p :: AncestorIds.run f (AncestorIds.mk t (some p)) := by
            simp [AncestorIds.run, AncestorIds.next, hg, hp]
          have hrunv : Ancestors.run (f + 1) (Ancestors.mk t (some c)) =
              m :: Ancestors.run f (Ancestors.mk t (some p)) := by
            simp [Ancestors.run, Ancestors.next, hg, hp, hm]
          rw [hruni, hrunv, List.map_cons, List.map_cons, hm, ih (some p)]

/-- In a well-formed tree the identifier run from a live node, given enough
fuel, has length exactly the node's depth. -/
theorem ancestor_ids_run_length (t : Tree T) (depth : NodeId → Nat)
    (hwf : WellFormed t depth) :
    ∀ (d : Nat) (id : NodeId) (n : Node T) (fuel : Nat), depth id = d →
      t.get id = some n → d ≤ fuel →
      (AncestorIds.run fuel (AncestorIds.mk t (some id))).length = d := by
  intro d
  induction d with
  | zero =>
    intro id n fuel hd hg hf
    cases hp : n.parent with
    | none =>
      cases fuel with
      | zero => rfl
      | succ f => simp [AncestorIds.run, AncestorIds.next, hg, hp]
    | some p =>
      have := hwf.parent_depth id n p hg hp
      omega
  | succ d ih =>
    intro id n fuel hd hg hf
    cases hp : n.parent with
    | none =>
      have := hwf.root_depth id n hg hp
      omega
    | some p =>
      obtain ⟨m, hm⟩ := hwf.parent_live id n p hg hp
      have hdp : depth p = d := by
        have := hwf.parent_depth id n p hg hp
        omega
      cases fuel with
      | zero => omega
      | succ f =>
        have hrun : AncestorIds.run (f + 1) (AncestorIds.mk t (some id)) =
            p :: AncestorIds.run f (AncestorIds.mk t (some p)) := by
          simp [AncestorIds.run, AncestorIds.next, hg, hp]
        rw [hrun, List.length_cons, ih p m f hdp hm (by omega)]

/-- In a well-formed tree the identifier run from a live node is the same
list for every sufficient amount of fuel: the traversal terminates. -/
theorem ancestor_ids_run_stable (t : Tree T) (depth : NodeId → Nat)
    (hwf : WellFormed t depth) :
    ∀ (d : Nat) (id : NodeId) (n : Node T) (fuel : Nat), depth id = d →
      t.get id = some n → d ≤ fuel →
      AncestorIds.run fuel (AncestorIds.mk t (some id)) =
        AncestorIds.run d (AncestorIds.mk t (some id)) := by
  intro d
  induction d with
  | zero =>
    intro id n fuel hd hg hf
    cases hp : n.parent with
    | none =>
      cases fuel with
      | zero => rfl
      | succ f => simp [AncestorIds.run, AncestorIds.next, hg, hp]
    | some p =>
      have := hwf.parent_depth id n p hg hp
      omega
  | succ d ih =>
    intro id n fuel hd hg hf
    cases hp : n.parent with
    | none =>
      have := hwf.root_depth id n hg hp
      omega
    | some p =>
      obtain ⟨m, hm⟩ := hwf.parent_live id n p hg hp
      have hdp : depth p = d := by
        have := hwf.parent_depth id n p hg hp
        omega
      cases fuel with
      | zero => omega
      | succ f =>
        have hrun : ∀ f1, AncestorIds.run (f1 + 1) (AncestorIds.mk t (some id)) =
            p :: AncestorIds.run f1 (AncestorIds.mk t (some p)) := by
          intro f1
          simp [AncestorIds.run, AncestorIds.next, hg, hp]
        rw [hrun f, hrun d, ih p m f hdp hm (by omega),
          ih p m d hdp hm (le_refl d)]

/-- In a well-formed tree the i-th identifier produced by the identifier run
sits exactly i+1 levels above the starting node: one level per element, no
skipping. -/
theorem ancestor_ids_run_get (t : Tree T) (depth : NodeId → Nat)
    (hwf : WellFormed t depth) :
    ∀ (d : Nat) (id : NodeId) (n : Node T) (fuel : Nat), depth id = d →
      t.get id = some n → d ≤ fuel →
      ∀ i r, (AncestorIds.run fuel (AncestorIds.mk t (some id))).get? i = some r →
        depth r + i + 1 = d := by
  intro d
  induction d with
  | zero =>
    intro id n fuel hd hg hf i r h
    rw [List.eq_nil_of_length_eq_zero
      (ancestor_ids_run_length t depth hwf 0 id n fuel hd hg hf)] at h
    cases h
  | succ d ih =>
    intro id n fuel hd hg hf i r h
    cases hp : n.parent with
    | none =>
      have := hwf.root_depth id n hg hp
      omega
    | some p =>
      obtain ⟨m, hm⟩ := hwf.parent_live id n p hg hp
      have hdp : depth p = d := by
        have := hwf.parent_depth id n p hg hp
        omega
      cases fuel with
      | zero => omega
      | succ f =>
        have hrun : AncestorIds.run (f + 1) (AncestorIds.mk t (some id)) =
            p :: AncestorIds.run f (AncestorIds.mk t (some p)) := by
          simp [AncestorIds.run, AncestorIds.next, hg, hp]
        rw [hrun] at h
        cases i with
        | zero =>
          obtain rfl : p = r := Option.some.inj h
          omega
        | succ i =>
          have h2 : (AncestorIds.run f (AncestorIds.mk t (some p))).get? i =
              some r := h
          have := ih p m f hdp hm (by omega) i r h2
          omega

/-- In a well-formed tree, the last identifier of the identifier run (when
the run is non-empty) names a live parentless node. -/
theorem ancestor_ids_run_last (t : Tree T) (depth : NodeId → Nat)
    (hwf : WellFormed t depth) :
    ∀ (d : Nat) (id : NodeId) (n : Node T) (fuel : Nat), depth id = d →
      t.get id = some n → d ≤ fuel →
      ∀ r, (AncestorIds.run fuel (AncestorIds.mk t (some id))).getLast? = some r →
        ∃ m, t.get r = some m ∧ m.parent = none := by
  intro d
  induction d with
  | zero =>
    intro id n fuel hd hg hf r hr
    have hnil := List.eq_nil_of_length_eq_zero
      (ancestor_ids_run_length t depth hwf 0 id n fuel hd hg hf)
    rw [hnil] at hr
    cases hr
  | succ d ih =>
    intro id n fuel hd hg hf r hr
    cases hp : n.parent with
    | none =>
      have := hwf.root_depth id n hg hp
      omega
    | some p =>
      obtain ⟨m, hm⟩ := hwf.parent_live id n p hg hp
      have hdp : depth p = d := by
        have := hwf.parent_depth id n p hg hp
        omega
      cases fuel with
      | zero => omega
      | succ f =>
        have hrun : AncestorIds.run (f + 1) (AncestorIds.mk t (some id)) =
            p :: AncestorIds.run f (AncestorIds.mk t (some p)) := by
          simp [AncestorIds.run, AncestorIds.next, hg, hp]
        rw [hrun] at hr
        cases htail : AncestorIds.run f (AncestorIds.mk t (some p)) with
        | nil =>
          rw [htail] at hr
          obtain rfl : p = r := Option.some.inj hr
          refine ⟨m, hm, ?_⟩
          cases hq : m.parent with
          | none => rfl
          | some q =>
            have hlen := ancestor_ids_run_length t depth hwf d p m f hdp hm
              (by omega)
            rw [htail] at hlen
            have := hwf.parent_depth p m q hm hq
            simp at hlen
            omega
        | cons a l =>
          rw [htail] at hr
          rw [List.getLast?_cons_cons] at hr
          rw [← htail] at hr
          exact ih p m f hdp hm (by omega) r hr

/-- C2: in a well-formed tree, the complete ancestor-by-value sequence from a
node has length equal to the node's depth, its last element (when present) is
the root's node — hence the root's data — and starting at the root (a
parentless node) produces the empty sequence. -/
theorem ancestors_length_last_root (t : Tree T) (depth : NodeId → Nat)
    (hwf : WellFormed t depth) (id : NodeId) (n : Node T) (fuel : Nat)
    (hg : t.get id = some n) (hf : depth id ≤ fuel) :
    ((Ancestors.run fuel (Ancestors.new t id)).length = depth id) ∧
    (∀ m, (Ancestors.run fuel (Ancestors.new t id)).getLast? = some m →
      ∃ r, t.root = some r ∧ t.get r = some m) ∧
    (n.parent = none → Ancestors.run fuel (Ancestors.new t id) = []) := by
  have hmap := ancestors_run_map t hwf.parent_live fuel (some id)
  have hleni := ancestor_ids_run_length t depth hwf (depth id) id n fuel rfl
    hg hf
  refine ⟨?_, ?_, ?_⟩
  · have hc := congrArg List.length hmap
    rw [List.length_map, List.length_map] at hc
    rw [show Ancestors.new t id = Ancestors.mk t (some id) from rfl]
    omega
  · intro m hlast
    rw [show Ancestors.new t id = Ancestors.mk t (some id) from rfl] at hlast
    have hgl := congrArg List.getLast? hmap
    rw [list_getLast?_map, list_getLast?_map, hlast] at hgl
    cases hil : (AncestorIds.run fuel (AncestorIds.mk t (some id))).getLast? with
    | none =>
      rw [hil] at hgl
      cases hgl
    | some r =>
      rw [hil] at hgl
      have hres : t.get r = some m := Option.some.inj hgl
      obtain ⟨m2, hm2, hpar⟩ := ancestor_ids_run_last t depth hwf (depth id)
        id n fuel rfl hg hf r hil
      have hparm : m.parent = none := by
        rw [hres] at hm2
        obtain rfl := Option.some.inj hm2
        exact hpar
      exact ⟨r, hwf.root_designated r m hres hparm, hres⟩
  · intro hp
    cases fuel with
    | zero => rfl
    | succ f =>
      show Ancestors.run (f + 1) (Ancestors.mk t (some id)) = []
      simp [Ancestors.run, Ancestors.next, hg, hp]

/-- Witness for C2 on the scenario tree: from node 2 the sequence has length
`exampleDepth 2 = 2`, and from the root it is empty. -/
theorem ancestors_length_last_root_witness :
    WellFormed exampleTree exampleDepth ∧
    (Ancestors.run 2 (Ancestors.new exampleTree 2)).length = exampleDepth 2 ∧
    Ancestors.run 2 (Ancestors.new exampleTree 0) = [] :=
  ⟨exampleTree_wf,
    (ancestors_length_last_root exampleTree exampleDepth exampleTree_wf 2
      node2 2 rfl (by decide)).1,
    (ancestors_length_last_root exampleTree exampleDepth exampleTree_wf 0
      node0 2 rfl (by decide)).2.2 rfl⟩

/-- C3: whenever the tree honours its validity contract on parent links,
resolving each identifier produced by the ancestor-by-identifier adapter
yields exactly the node sequence produced by the ancestor-by-value adapter,
element for element, from the same starting point and with the same fuel. -/
theorem ancestor_ids_refine_values (t : Tree T) (hpl : ParentsLive t)
    (id : NodeId) (fuel : Nat) :
    (AncestorIds.run fuel (AncestorIds.new t id)).map t.get =
      (Ancestors.run fuel (Ancestors.new t id)).map some :=
  ancestors_run_map t hpl fuel (some id)

/-- Witness for C3 on the scenario tree, starting at node 2. -/
theorem ancestor_ids_refine_values_witness :
    ParentsLive exampleTree ∧
    (AncestorIds.run 5 (AncestorIds.new exampleTree 2)).map exampleTree.get =
      (Ancestors.run 5 (Ancestors.new exampleTree 2)).map some :=
  ⟨exampleTree_wf.parent_live,
    ancestor_ids_refine_values exampleTree exampleTree_wf.parent_live 2 5⟩

/-- C7: in a well-formed (acyclic) tree the ancestor traversal terminates —
given enough fuel the produced sequence no longer depends on the fuel, its
length is the starting node's depth, each produced identifier sits exactly
one more level toward the root than the previous one (no skipping), and no
identifier is produced twice; the by-value run stabilises identically. -/
theorem ancestors_terminate (t : Tree T) (depth : NodeId → Nat)
    (hwf : WellFormed t depth) (id : NodeId) (n : Node T) (fuel : Nat)
    (hg : t.get id = some n) (hf : depth id ≤ fuel) :
    (AncestorIds.run fuel (AncestorIds.new t id) =
      AncestorIds.run (depth id) (AncestorIds.new t id)) ∧
    ((AncestorIds.run fuel (AncestorIds.new t id)).length = depth id) ∧
    (∀ i r, (AncestorIds.run fuel (AncestorIds.new t id)).get? i = some r →
      depth r + i + 1 = depth id) ∧
    (∀ i j r, (AncestorIds.run fuel (AncestorIds.new t id)).get? i = some r →
      (AncestorIds.run fuel (AncestorIds.new t id)).get? j = some r → i = j) ∧
    (Ancestors.run fuel (Ancestors.new t id) =
      Ancestors.run (depth id) (Ancestors.new t id)) := by
  refine ⟨?_, ?_, ?_, ?_, ?_⟩
  · exact ancestor_ids_run_stable t depth hwf (depth id) id n fuel rfl hg hf
  · exact ancestor_ids_run_length t depth hwf (depth id) id n fuel rfl hg hf
  · exact ancestor_ids_run_get t depth hwf (depth id) id n fuel rfl hg hf
  · intro i j r hi hj
    have h1 := ancestor_ids_run_get t depth hwf (depth id) id n fuel rfl hg hf
      i r hi
    have h2 := ancestor_ids_run_get t depth hwf (depth id) id n fuel rfl hg hf
      j r hj
    omega
  · have e1 := ancestors_run_map t hwf.parent_live fuel (some id)
    have e2 := ancestors_run_map t hwf.parent_live (depth id) (some id)
    have estable := ancestor_ids_run_stable t depth hwf (depth id) id n fuel
      rfl hg hf
    have hmaps : (Ancestors.run fuel (Ancestors.mk t (some id))).map some =
        (Ancestors.run (depth id) (Ancestors.mk t (some id))).map some := by
      rw [← e1, ← e2, estable]
    exact List.map_injective_iff.mpr (fun a b hab => Option.some.inj hab) hmaps

/-- Witness for C7 on the scenario tree: starting at node 3 with surplus
fuel, the identifier run has length `exampleDepth 3 = 2`. -/
theorem ancestors_terminate_witness :
    WellFormed exampleTree exampleDepth ∧
    (AncestorIds.run 7 (AncestorIds.new exampleTree 3)).length = exampleDepth 3 :=
  ⟨exampleTree_wf,
    (ancestors_terminate exampleTree exampleDepth exampleTree_wf 3 node3 7 rfl
      (by decide)).2.1⟩

/-- With enough fuel, the `ChildrenIds` run reproduces the snapshotted
child-identifier list exactly. -/
theorem children_ids_run_eq :
    ∀ (l : List NodeId) (fuel : Nat), l.length ≤ fuel →
      ChildrenIds.run fuel (ChildrenIds.mk l) = l := by
  intro l
  induction l with
  | nil =>
    intro fuel _
    cases fuel with
    | zero => rfl
    | succ f => rfl
  | cons c rest ih =>
    intro fuel hf
    cases fuel with
    | zero => simp at hf
    | succ f =>
      have hrun : ChildrenIds.run (f + 1) (ChildrenIds.mk (c :: rest)) =
          c :: ChildrenIds.run f (ChildrenIds.mk rest) := by
        simp [ChildrenIds.run, ChildrenIds.next]
      rw [hrun, ih f (by simp at hf; omega)]

/-- With enough fuel and all snapshotted identifiers resolving, the
`Children` run produces exactly the looked-up node of each identifier, in
order. -/
theorem children_run_map (t : Tree T) :
    ∀ (l : List NodeId) (fuel : Nat), l.length ≤ fuel →
      (∀ c ∈ l, ∃ m, t.get c = some m) →
      (Children.run fuel (Children.mk t l)).map some = l.map t.get := by
  intro l
  induction l with
  | nil =>
    intro fuel _ _
    cases fuel with
    | zero => rfl
    | succ f => rfl
  | cons c rest ih =>
    intro fuel hf hres
    obtain ⟨m, hm⟩ := hres c (List.mem_cons_self c rest)
    cases fuel with
    | zero => simp at hf
    | succ f =>
      have hrun : Children.run (f + 1) (Children.mk t (c :: rest)) =
          m :: Children.run f (Children.mk t rest) := by
        simp [Children.run, Children.next, hm]
      rw [hrun, List.map_cons, List.map_cons, hm,
        ih f (by simp at hf; omega) (fun a ha => hres a (List.mem_cons_of_mem c ha))]

/-- C4: the children-by-value adapter, constructed at a live node all of
whose child identifiers resolve, snapshots the node's child list and — with
enough fuel — produces exactly the children's nodes in stored child order;
in particular its length is the number of direct children and a leaf yields
the empty sequence, by value and by identifier alike. -/
theorem children_values_contract (t : Tree T) (id : NodeId) (n : Node T)
    (fuel : Nat) (hg : t.get id = some n)
    (hres : ∀ c ∈ n.children, ∃ m, t.get c = some m)
    (hf : n.children.length ≤ fuel) :
    ∃ s, Children.new t id = Except.ok s ∧ s.child_ids = n.children ∧
      (Children.run fuel s).map some = n.children.map t.get ∧
      (Children.run fuel s).length = n.children.length ∧
      (n.children = [] → Children.run fuel s = [] ∧
        ∀ si, ChildrenIds.new t id = Except.ok si →
          ChildrenIds.run fuel si = []) := by
  refine ⟨Children.mk t n.children, by simp [Children.new, hg], rfl, ?_, ?_, ?_⟩
  · exact children_run_map t n.children fuel hf hres
  · have hc := congrArg List.length (children_run_map t n.children fuel hf hres)
    rw [List.length_map, List.length_map] at hc
    exact hc
  · intro hnil
    constructor
    · rw [hnil]
      cases fuel with
      | zero => rfl
      | succ f => rfl
    · intro si hsi
      have hsi2 : (Except.ok (ChildrenIds.mk n.children) :
          Except Unit ChildrenIds) = Except.ok si := by
        rw [← hsi]
        simp [ChildrenIds.new, hg]
      obtain rfl := Except.ok.inj hsi2
      rw [hnil]
      cases fuel with
      | zero => rfl
      | succ f => rfl

/-- Witness for C4 on the scenario tree at node 1 (children `[2, 3]`) with
the leaf clause exercised at node 2. -/
theorem children_values_contract_witness :
    (∃ s, Children.new exampleTree 1 = Except.ok s ∧
      s.child_ids = node1.children ∧
      (Children.run 2 s).map some = node1.children.map exampleTree.get ∧
      (Children.run 2 s).length = node1.children.length ∧
      (node1.children = [] → Children.run 2 s = [] ∧
        ∀ si, ChildrenIds.new exampleTree 1 = Except.ok si →
          ChildrenIds.run 2 si = [])) ∧
    (∃ s, Children.new exampleTree 2 = Except.ok s ∧
      s.child_ids = node2.children ∧
      (Children.run 2 s).map some = node2.children.map exampleTree.get ∧
      (Children.run 2 s).length = node2.children.length ∧
      (node2.children = [] → Children.run 2 s = [] ∧
        ∀ si, ChildrenIds.new exampleTree 2 = Except.ok si →
          ChildrenIds.run 2 si = [])) := by
  constructor
  · refine children_values_contract exampleTree 1 node1 2 rfl ?_ (by decide)
    intro c hc
    have : c = 2 ∨ c = 3 := by simpa [node1] using hc
    rcases this with rfl | rfl
    · exact ⟨node2, rfl⟩
    · exact ⟨node3, rfl⟩
  · refine children_values_contract exampleTree 2 node2 2 rfl ?_ (by decide)
    intro c hc
    simp [node2] at hc

/-- C5: the children-by-identifier adapter satisfies the same contract as the
children-by-value adapter up to resolution — both snapshot the same child
list at construction, and resolving each produced identifier yields the
by-value node sequence element for element. -/
theorem children_ids_refine_values (t : Tree T) (id : NodeId) (n : Node T)
    (fuel : Nat) (hg : t.get id = some n)
    (hres : ∀ c ∈ n.children, ∃ m, t.get c = some m)
    (hf : n.children.length ≤ fuel) :
    ∃ sv si, Children.new t id = Except.ok sv ∧
      ChildrenIds.new t id = Except.ok si ∧
      si.child_ids = sv.child_ids ∧
      (ChildrenIds.run fuel si).map t.get = (Children.run fuel sv).map some := by
  refine ⟨Children.mk t n.children, ChildrenIds.mk n.children,
    by simp [Children.new, hg], by simp [ChildrenIds.new, hg], rfl, ?_⟩
  rw [children_ids_run_eq n.children fuel hf,
    children_run_map t n.children fuel hf hres]

/-- Witness for C5 on the scenario tree at node 1. -/
theorem children_ids_refine_values_witness :
    ∃ sv si, Children.new exampleTree 1 = Except.ok sv ∧
      ChildrenIds.new exampleTree 1 = Except.ok si ∧
      si.child_ids = sv.child_ids ∧
      (ChildrenIds.run 2 si).map exampleTree.get =
        (Children.run 2 sv).map some := by
  refine children_ids_refine_values exampleTree 1 node1 2 rfl ?_ (by decide)
  intro c hc
  have : c = 2 ∨ c = 3 := by simpa [node1] using hc
  rcases this with rfl | rfl
  · exact ⟨node2, rfl⟩
  · exact ⟨node3, rfl⟩

end IdTree
